import Mathlib

/-!
Shallow embedding of the ASCII webcam converter
(`src/ascii_webcam/converter.py`, class `ASCIIConverter`) and proofs about
its dimension planner, color schemes, intensity mapper, scratch-buffer
reuse and ANSI renderer.

Numeric conventions: Python ints are modelled as `ℤ`, pixel channel values
(numpy `uint8`) as `ℕ`, and Python float arithmetic as exact rationals `ℚ`
(the float literals 0.45, 1.4, 1.2, 1.5, 0.8, 1.6 become 9/20, 7/5, 6/5,
3/2, 4/5, 8/5).  Python's `int(...)` on a float truncates toward zero,
modelled by `truncToInt`; numpy's `astype(np.uint8)` on clamped
non-negative floats truncates, modelled by `truncUint8`.  Buffer identity
(needed for the buffer-reuse claims) is modelled by generation counters:
a counter bump corresponds to a fresh numpy allocation.
-/

namespace AsciiWebcam

/-- Python `int(x)` for a real value: truncation toward zero. -/
def truncToInt (q : ℚ) : ℤ := if 0 ≤ q then ⌊q⌋ else -⌊-q⌋

/-- numpy `astype(np.uint8)` on a float value: truncate toward zero, wrap
modulo 256 (the schemes only ever produce values in [0,255], where this is
plain truncation). -/
def truncUint8 (q : ℚ) : ℕ := (truncToInt q).toNat % 256

/-- Registry `ASCIIConverter.CHAR_PRESETS` of character ramps, darkest to
lightest. -/
def CHAR_PRESETS : List (String × String) :=
  [ ("classic", " .:-=+*#%@")
  , ("blocks", "░▒▓█")
  , ("simple", " .*#")
  , ("detailed", " .\",:;!~*=#$@")
  , ("matrix", "01")
  , ("dots", "·•●")
  , ("lines", "─│┌┐└┘├┤┬┴┼") ]

/-- The five registered color schemes. -/
inductive Scheme where
  | trueColor
  | neon
  | matrix
  | vintage
  | cyberpunk
deriving DecidableEq

/-- A pixel cell: three channel values. -/
abbrev Triple := ℚ × ℚ × ℚ

/-- Registry `ASCIIConverter.COLOR_SCHEMES`: each scheme's lambda, taking the three
channels `b`, `g`, `r` of a source cell and returning the tuple written in
the registry (`np.minimum`/`np.maximum` become `min`/`max`). -/
def schemeFun : Scheme → ℚ → ℚ → ℚ → Triple
  | .trueColor => fun b g r => (r, g, b)
  | .neon => fun b g r =>
      (min (r * (7/5)) 255, min (g * (7/5)) 255, min (b * (6/5)) 255)
  | .matrix => fun _b g _r => (0, min (g * (3/2)) 255, 0)
  | .vintage => fun b g r =>
      (min (r * (6/5)) 255, min (g * (6/5)) 255, max (b * (4/5)) 0)
  | .cyberpunk => fun b g r =>
      (min (b * (7/5)) 255, min (g * (6/5)) 255, min (r * (8/5)) 255)

/-- The registry keyed by name, mirroring the `COLOR_SCHEMES` dict. -/
def COLOR_SCHEMES : List (String × Scheme) :=
  [ ("true", .trueColor)
  , ("neon", .neon)
  , ("matrix", .matrix)
  , ("vintage", .vintage)
  , ("cyberpunk", .cyberpunk) ]

/-- Configuration held by a constructed `ASCIIConverter`. -/
structure Converter where
  chars : String
  width : ℤ
  height : Option ℤ
  charRange : ℤ
  colorSchemeName : String
deriving DecidableEq

/-- Constructor `ASCIIConverter.__init__`: validates the preset name against
`CHAR_PRESETS` and the color-scheme name against `COLOR_SCHEMES` (raising
`ValueError`, modelled as `Except.error` with the message prefix), then
stores the configuration.  The width and height arguments are stored
unchecked. -/
def asciiConverterInit (preset : String) (width : ℤ) (height : Option ℤ)
    (colorScheme : String) : Except String Converter :=
  match CHAR_PRESETS.lookup preset with
  | none => .error ("Unknown preset " ++ preset)
  | some chars =>
    match COLOR_SCHEMES.lookup colorScheme with
    | none => .error ("Unknown color scheme " ++ colorScheme)
    | some _ =>
      .ok { chars := chars
          , width := width
          , height := height
          , charRange := (chars.length : ℤ) - 1
          , colorSchemeName := colorScheme }

/-- Method `ASCIIConverter._calculate_dimensions`: computes the output grid
dimensions from the source frame dimensions and the configured target
width / optional height.  Python raises `ZeroDivisionError` when
`frame_width` is 0 (the `frame_height / frame_width` division) and, when a
target height is configured, also when the aspect ratio is 0 (the
`new_height / aspect_ratio` float division); both are modelled as `none`. -/
def calculateDimensions (width : ℤ) (height : Option ℤ) (frameWidth frameHeight : ℤ) :
    Option (ℤ × ℤ) :=
  if frameWidth = 0 then none
  else
    let aspect : ℚ := (frameHeight : ℚ) / (frameWidth : ℚ)
    let w0 : ℤ := min width frameWidth
    match height with
    | some hgt =>
        if aspect = 0 then none
        else
          let newHeight : ℤ := min hgt frameHeight
          let widthByHeight : ℤ := truncToInt (((newHeight : ℚ) / aspect) / (9/20 : ℚ))
          let newWidth : ℤ := min w0 widthByHeight
          some (max newWidth 10, max newHeight 5)
    | none =>
        let newHeight : ℤ := truncToInt ((w0 : ℚ) * aspect * (9/20 : ℚ))
        some (max w0 10, max newHeight 5)

/-- The dimension/buffer cache slice of the converter state used by
`_resize_frame`: the `(last frame dims, last target dims)` keys, the shape
of the scratch-buffer block (`_resized_buffer`, `_gray_buffer`,
`_char_buffer`, `_color_buffer`, `_intensity_buffer`,
`_char_indices_buffer` and the line builders, all allocated together in
one branch), and a generation counter bumped exactly when that block is
(re)allocated. -/
structure ResizeState where
  lastFrameDims : Option (ℤ × ℤ)
  lastTargetDims : Option (ℤ × Option ℤ)
  bufShape : Option (ℤ × ℤ)
  bufGen : ℕ
deriving DecidableEq

/-- Fresh converter: no cached dims, no allocated buffers. -/
def initResizeState : ResizeState :=
  { lastFrameDims := none, lastTargetDims := none, bufShape := none, bufGen := 0 }

/-- Method `ASCIIConverter._resize_frame`: on a frame of dimensions
`(frameWidth, frameHeight)`, recompute and re-key the cached dimensions
when either the frame dims or the target dims changed, and reallocate the
scratch-buffer block only when the computed `(new_height, new_width)`
differs from the current buffer shape.  Returns the updated state and the
computed grid dimensions. -/
def resizeStep (width : ℤ) (height : Option ℤ) (st : ResizeState)
    (frameWidth frameHeight : ℤ) : Option (ResizeState × ℤ × ℤ) :=
  match calculateDimensions width height frameWidth frameHeight with
  | none => none
  | some (newWidth, newHeight) =>
    if st.lastFrameDims ≠ some (frameWidth, frameHeight) ∨
        st.lastTargetDims ≠ some (width, height) then
      let st1 := { st with
        lastFrameDims := some (frameWidth, frameHeight)
      , lastTargetDims := some (width, height) }
      if st.bufShape = some (newHeight, newWidth) then
        some (st1, newWidth, newHeight)
      else
        some ({ st1 with bufShape := some (newHeight, newWidth), bufGen := st.bufGen + 1 },
              newWidth, newHeight)
    else
      some (st, newWidth, newHeight)

/-- Method `ASCIIConverter._map_intensity_to_chars`, per cell: multiply the 8-bit
intensity by `char_range / 255.0`, clip to `[0, char_range]`, floor, and
convert to an integer index. -/
def mapIntensityIdx (charRange : ℕ) (intensity : ℕ) : ℤ :=
  ⌊min (max ((intensity : ℚ) * ((charRange : ℚ) / 255)) 0) (charRange : ℚ)⌋

/-- An 8-bit pixel cell as stored in a numpy buffer: the values of
channels 0, 1 and 2 in storage order (source frames are BGR). -/
abbrev Cell := ℕ × ℕ × ℕ

/-- All three channels of a cell are 8-bit values. -/
def cellInRange (c : Cell) : Prop := c.1 ≤ 255 ∧ c.2.1 ≤ 255 ∧ c.2.2 ≤ 255

/-- Function `true_color` in `_setup_color_function`, per cell: pure uint8 channel
copies `out[0] = in[2]`, `out[1] = in[1]`, `out[2] = in[0]`. -/
def trueColorCell (c : Cell) : Cell := (c.2.2, c.2.1, c.1)

/-- Function `matrix_color` in `_setup_color_function`, per cell: a zeroed cell
whose channel 1 is `min(in[1] * 1.5, 255)` narrowed to uint8. -/
def matrixColorCell (c : Cell) : Cell :=
  (0, truncUint8 (min ((c.2.1 : ℚ) * (3/2)) 255), 0)

/-- Function `optimized_color_func` in `_setup_color_function`, per cell: the three
channels are read as `b, g, r = in[0], in[1], in[2]`, the registry lambda
is applied giving `r_out, g_out, b_out`, and the output channels are
written `out[0] = b_out`, `out[1] = g_out`, `out[2] = r_out`, each
narrowed to uint8. -/
def optimizedColorCell (s : Scheme) (c : Cell) : Cell :=
  let t := schemeFun s (c.1 : ℚ) (c.2.1 : ℚ) (c.2.2 : ℚ)
  (truncUint8 t.2.2, truncUint8 t.2.1, truncUint8 t.1)

/-- The per-cell transform actually installed by `_setup_color_function`:
the dedicated fast path for `true` and `matrix`, the generic vectorized
path for every other scheme. -/
def fastPathCell (s : Scheme) (c : Cell) : Cell :=
  match s with
  | .trueColor => trueColorCell c
  | .matrix => matrixColorCell c
  | _ => optimizedColorCell s c

/-- Modelled from the spec: the reference semantics the spec demands for
C8 — apply the scheme's `COLOR_SCHEMES` registry entry independently to
one cell (its channels read in storage order `b, g, r`), and narrow the
returned triple, in the order the lambda returns it, to 8-bit. -/
def registryCell (s : Scheme) (c : Cell) : Cell :=
  let t := schemeFun s (c.1 : ℚ) (c.2.1 : ℚ) (c.2.2 : ℚ)
  (truncUint8 t.1, truncUint8 t.2.1, truncUint8 t.2.2)

/-- Swap the first and third components of a cell. -/
def swap13 (c : Cell) : Cell := (c.2.2, c.2.1, c.1)

/-- Constant `self._color_start`. -/
def colorStart : String := "\x1b[38;2;"

/-- Constant `self._color_sep`. -/
def colorSep : String := ";"

/-- Constant `self._color_end`. -/
def colorEnd : String := "m"

/-- Constant `self._color_reset`. -/
def colorReset : String := "\x1b[0m"

/-- One iteration of the inner `for x` loop of `_create_ansi_text`: the
eight parts extended onto the row builder for one cell, where `r, g, b`
are unpacked from the color cell's channels 0, 1, 2 in storage order. -/
def ansiCellStr (color : Cell) (ch : Char) : String :=
  colorStart ++ toString color.1 ++ colorSep ++ toString color.2.1 ++ colorSep
    ++ toString color.2.2 ++ colorEnd ++ String.singleton ch

/-- One iteration of the outer `for y` loop of `_create_ansi_text`: the
cell parts of row `y` joined, with the color reset appended last. -/
def ansiRowStr (colors : List Cell) (chars : List Char) : String :=
  String.join (List.zipWith ansiCellStr colors chars) ++ colorReset

/-- The per-row line builders produced by `_create_ansi_text` for a color
grid and a character grid: one built row per grid row. -/
def createAnsiLines (colors : List (List Cell)) (chars : List (List Char)) :
    List String :=
  List.zipWith ansiRowStr colors chars

/-- Method `_create_ansi_text`: all built rows joined with newlines. -/
def createAnsiText (colors : List (List Cell)) (chars : List (List Char)) : String :=
  String.intercalate "\n" (createAnsiLines colors chars)

/-- The `_color_buffer` slice of the converter state, with buffer identity
modelled by ids: `bufId` is the identity of the current `_color_buffer`,
`nextId` the id the next fresh numpy allocation would get. -/
structure ColorState where
  bufShape : Option (ℤ × ℤ)
  bufId : ℕ
  nextId : ℕ
deriving DecidableEq

/-- Every id already handed out is below the allocation counter. -/
def ColorState.wf (st : ColorState) : Prop := st.bufId < st.nextId

/-- One invocation of the installed `_color_func_vec` on a frame of the
given shape, tracking buffer identities: `matrix_color` allocates a fresh
zeroed array (`np.zeros_like`) every call and leaves `_color_buffer`
alone; `true_color` and `optimized_color_func` reallocate `_color_buffer`
only when its shape differs from the frame's, then write into it and
return it.  Returns the new state and the id of the returned buffer. -/
def colorApply (s : Scheme) (st : ColorState) (shape : ℤ × ℤ) : ColorState × ℕ :=
  match s with
  | .matrix => ({ st with nextId := st.nextId + 1 }, st.nextId)
  | _ =>
    if st.bufShape = some shape then (st, st.bufId)
    else ({ bufShape := some shape, bufId := st.nextId, nextId := st.nextId + 1 },
          st.nextId)

/-! Helper lemmas. -/

/-- A channel value is a valid 8-bit intensity. -/
def inRange255 (q : ℚ) : Prop := 0 ≤ q ∧ q ≤ 255

/-- All three components of a triple are valid 8-bit intensities. -/
def tripleInRange (t : Triple) : Prop :=
  inRange255 t.1 ∧ inRange255 t.2.1 ∧ inRange255 t.2.2

lemma scaled_clamp_in_range {x k : ℚ} (hx : 0 ≤ x) (hk : 0 ≤ k) :
    inRange255 (min (x * k) 255) :=
  ⟨le_min (by positivity) (by norm_num), min_le_right _ _⟩

lemma truncUint8_natCast {n : ℕ} (h : n ≤ 255) : truncUint8 (n : ℚ) = n := by
  have h0 : (0 : ℚ) ≤ (n : ℚ) := by positivity
  simp only [truncUint8, truncToInt, if_pos h0, Int.floor_natCast, Int.toNat_natCast]
  omega

/-- The inverse of the BGR-to-RGB channel permutation, on rational triples. -/
def invPermTriple (t : Triple) : Triple := (t.2.2, t.2.1, t.1)

/-! Theorems for the claims. -/

/-- C3: for every registered color scheme (true, neon, matrix, vintage,
cyberpunk) and every input triple with each channel in [0, 255], the
transformed output triple has every channel in [0, 255]; no scheme ever
produces an out-of-range channel value. -/
theorem scheme_output_in_range (p : String × Scheme) (hp : p ∈ COLOR_SCHEMES)
    (b g r : ℚ) (hb : inRange255 b) (hg : inRange255 g) (hr : inRange255 r) :
    tripleInRange (schemeFun p.2 b g r) := by
  obtain ⟨hb0, hb1⟩ := hb
  obtain ⟨hg0, hg1⟩ := hg
  obtain ⟨hr0, hr1⟩ := hr
  have hcases : p.2 = Scheme.trueColor ∨ p.2 = Scheme.neon ∨ p.2 = Scheme.matrix ∨
      p.2 = Scheme.vintage ∨ p.2 = Scheme.cyberpunk := by
    simp only [COLOR_SCHEMES, List.mem_cons, List.not_mem_nil, or_false] at hp
    rcases hp with h | h | h | h | h <;> simp [h]
  rcases hcases with h | h | h | h | h <;>
    simp only [h, schemeFun, tripleInRange] <;>
    refine ⟨?_, ?_, ?_⟩
  · exact ⟨hr0, hr1⟩
  · exact ⟨hg0, hg1⟩
  · exact ⟨hb0, hb1⟩
  · exact scaled_clamp_in_range hr0 (by norm_num)
  · exact scaled_clamp_in_range hg0 (by norm_num)
  · exact scaled_clamp_in_range hb0 (by norm_num)
  · exact ⟨le_refl 0, by norm_num⟩
  · exact scaled_clamp_in_range hg0 (by norm_num)
  · exact ⟨le_refl 0, by norm_num⟩
  · exact scaled_clamp_in_range hr0 (by norm_num)
  · exact scaled_clamp_in_range hg0 (by norm_num)
  · exact ⟨le_max_right _ _, max_le (by nlinarith) (by norm_num)⟩
  · exact scaled_clamp_in_range hb0 (by norm_num)
  · exact scaled_clamp_in_range hg0 (by norm_num)
  · exact scaled_clamp_in_range hr0 (by norm_num)

/-- Witness for C3: the vintage scheme applied at (200, 100, 50). -/
theorem scheme_output_in_range_witness :
    tripleInRange (schemeFun (("vintage", Scheme.vintage) : String × Scheme).2 200 100 50) :=
  scheme_output_in_range ("vintage", Scheme.vintage) (by simp [COLOR_SCHEMES])
    200 100 50 ⟨by norm_num, by norm_num⟩ ⟨by norm_num, by norm_num⟩
    ⟨by norm_num, by norm_num⟩

/-- C4: for a source frame of width 0, dimension planning fails with a
defined error (the guarded aspect-ratio division; Python raises
`ZeroDivisionError` there) instead of producing garbage dimensions, for
every configured target width and optional height and every frame
height. -/
theorem zero_width_frame_fails (width : ℤ) (height : Option ℤ) (frameHeight : ℤ) :
    calculateDimensions width height 0 frameHeight = none := by
  simp [calculateDimensions]

/-- C7: the registry entry of the `true` scheme is a pure permutation of
the three channels (BGR input chanels to RGB output order, no arithmetic),
and mapping the inverse permutation over its output reconstructs any input
buffer of in-range triples exactly. -/
theorem true_scheme_permutation (buf : List Triple)
    (hbuf : ∀ t ∈ buf, tripleInRange t) :
    (∀ t : Triple, schemeFun Scheme.trueColor t.1 t.2.1 t.2.2 = invPermTriple t) ∧
    buf.map (fun t => invPermTriple (schemeFun Scheme.trueColor t.1 t.2.1 t.2.2)) = buf := by
  refine ⟨fun t => rfl, ?_⟩
  have h : (fun t : Triple => invPermTriple (schemeFun Scheme.trueColor t.1 t.2.1 t.2.2)) =
      fun t => t := by
    funext t
    rfl
  rw [h]
  exact List.map_id' buf

/-- Witness for C7: round trip on a two-cell buffer. -/
theorem true_scheme_permutation_witness :
    (∀ t : Triple, schemeFun Scheme.trueColor t.1 t.2.1 t.2.2 = invPermTriple t) ∧
    ([((10 : ℚ), (20 : ℚ), (30 : ℚ)), (0, 255, 128)] : List Triple).map
      (fun t => invPermTriple (schemeFun Scheme.trueColor t.1 t.2.1 t.2.2)) =
      [((10 : ℚ), (20 : ℚ), (30 : ℚ)), (0, 255, 128)] :=
  true_scheme_permutation [((10 : ℚ), (20 : ℚ), (30 : ℚ)), (0, 255, 128)]
    (by intro t ht
        simp only [List.mem_cons, List.not_mem_nil, or_false] at ht
        rcases ht with h | h <;> subst h <;>
          exact ⟨⟨by norm_num, by norm_num⟩, ⟨by norm_num, by norm_num⟩,
                 ⟨by norm_num, by norm_num⟩⟩)

lemma mapIntensityIdx_at_zero (c : ℕ) : mapIntensityIdx c 0 = 0 := by
  have hc : (0 : ℚ) ≤ (c : ℚ) := by positivity
  simp [mapIntensityIdx, hc]

lemma mapIntensityIdx_at_255 (c : ℕ) : mapIntensityIdx c 255 = (c : ℤ) := by
  have h : (255 : ℚ) * ((c : ℚ) / 255) = (c : ℚ) := by
    field_simp
  have hc : (0 : ℚ) ≤ (c : ℚ) := by positivity
  simp [mapIntensityIdx, h, max_eq_left hc]

lemma mapIntensityIdx_bounds (c i : ℕ) :
    0 ≤ mapIntensityIdx c i ∧ mapIntensityIdx c i ≤ (c : ℤ) := by
  constructor
  · apply Int.floor_nonneg.mpr
    exact le_min (le_max_right _ _) (by positivity)
  · calc mapIntensityIdx c i ≤ ⌊(c : ℚ)⌋ := Int.floor_le_floor (min_le_right _ _)
    _ = (c : ℤ) := Int.floor_natCast c

/-- C5: for every registered character ramp, the intensity mapper sends
luma 0 to ramp index 0 and luma 255 to ramp index rampLength - 1, and
every index produced from an 8-bit luma lies in [0, rampLength - 1]. -/
theorem intensity_mapper_endpoints (p : String × String) (hp : p ∈ CHAR_PRESETS)
    (i : ℕ) (hi : i ≤ 255) :
    mapIntensityIdx (p.2.length - 1) 0 = 0 ∧
    mapIntensityIdx (p.2.length - 1) 255 = ((p.2.length - 1 : ℕ) : ℤ) ∧
    0 ≤ mapIntensityIdx (p.2.length - 1) i ∧
    mapIntensityIdx (p.2.length - 1) i ≤ ((p.2.length - 1 : ℕ) : ℤ) :=
  ⟨mapIntensityIdx_at_zero _, mapIntensityIdx_at_255 _,
   (mapIntensityIdx_bounds _ i).1, (mapIntensityIdx_bounds _ i).2⟩

/-- Witness for C5: the classic ramp (length 10) at luma 100. -/
theorem intensity_mapper_endpoints_witness :
    mapIntensityIdx ((("classic", " .:-=+*#%@") : String × String).2.length - 1) 0 = 0 ∧
    mapIntensityIdx ((("classic", " .:-=+*#%@") : String × String).2.length - 1) 255 =
      (((("classic", " .:-=+*#%@") : String × String).2.length - 1 : ℕ) : ℤ) ∧
    0 ≤ mapIntensityIdx ((("classic", " .:-=+*#%@") : String × String).2.length - 1) 100 ∧
    mapIntensityIdx ((("classic", " .:-=+*#%@") : String × String).2.length - 1) 100 ≤
      (((("classic", " .:-=+*#%@") : String × String).2.length - 1 : ℕ) : ℤ) :=
  intensity_mapper_endpoints ("classic", " .:-=+*#%@") (by simp [CHAR_PRESETS])
    100 (by norm_num)

lemma truncToInt_nonneg_le {q b : ℚ} (hq : 0 ≤ q) (hb : q ≤ b) :
    truncToInt q ≤ ⌊b⌋ := by
  rw [truncToInt, if_pos hq]
  exact Int.floor_le_floor hb

/-- C1 counterexample: on a 5×5 source frame with target width 80 and no
target height, the planner returns grid width 10, which exceeds the source
width 5 — the minimum-dimension clamp overrides the no-upscaling rule. -/
theorem calc_dims_exceeds_source_counterexample :
    calculateDimensions 80 none 5 5 = some (10, 5) ∧ (5 : ℤ) < 10 := by
  constructor
  · norm_num [calculateDimensions, truncToInt]
  · norm_num

/-- C1 amended: for positive source dimensions and any positive target
width with optional target height, the planner succeeds and returns a grid
width ≥ 10 and grid height ≥ 5; the grid width never exceeds
max(sourceWidth, 10) and the grid height never exceeds
max(sourceHeight, 5) — i.e. the result never exceeds the source dimensions
except when the minimum-dimension clamps (width 10, height 5) force it
to. -/
theorem calc_dims_bounds (width : ℤ) (height : Option ℤ) (fw fh : ℤ)
    (hw : 0 < width) (hfw : 0 < fw) (hfh : 0 < fh) :
    ∃ gw gh, calculateDimensions width height fw fh = some (gw, gh) ∧
      10 ≤ gw ∧ 5 ≤ gh ∧ gw ≤ max fw 10 ∧ gh ≤ max fh 5 := by
  have hfw0 : fw ≠ 0 := ne_of_gt hfw
  have haspect : (0 : ℚ) < (fh : ℚ) / (fw : ℚ) := by
    apply div_pos <;> exact_mod_cast ‹_›
  match height with
  | some hgt =>
      refine ⟨max (min (min width fw)
          (truncToInt (((min hgt fh : ℤ) : ℚ) / ((fh : ℚ) / (fw : ℚ)) / (9/20 : ℚ)))) 10,
        max (min hgt fh) 5, ?_, le_max_right _ _, le_max_right _ _, ?_, ?_⟩
      · simp only [calculateDimensions, if_neg hfw0, if_neg (ne_of_gt haspect)]
      · exact max_le_max (le_trans (min_le_left _ _) (min_le_right _ _)) (le_refl 10)
      · exact max_le_max (min_le_right _ _) (le_refl 5)
  | none =>
      refine ⟨max (min width fw) 10,
        max (truncToInt (((min width fw : ℤ) : ℚ) * ((fh : ℚ) / (fw : ℚ)) * (9/20 : ℚ))) 5,
        ?_, le_max_right _ _, le_max_right _ _, ?_, ?_⟩
      · simp only [calculateDimensions, if_neg hfw0]
      · exact max_le_max (min_le_right _ _) (le_refl 10)
      · refine max_le_max ?_ (le_refl 5)
        have hw0 : (0 : ℚ) ≤ ((min width fw : ℤ) : ℚ) := by
          have : (0 : ℤ) ≤ min width fw := le_min (le_of_lt hw) (le_of_lt hfw)
          exact_mod_cast this
        have hwle : ((min width fw : ℤ) : ℚ) ≤ (fw : ℚ) := by
          exact_mod_cast min_le_right width fw
        have hq : ((min width fw : ℤ) : ℚ) * ((fh : ℚ) / (fw : ℚ)) * (9/20 : ℚ) ≤ (fh : ℚ) := by
          rw [div_eq_mul_inv]
          have hfwq : (0 : ℚ) < (fw : ℚ) := by exact_mod_cast hfw
          have hfhq : (0 : ℚ) ≤ (fh : ℚ) := by exact_mod_cast le_of_lt hfh
          have step1 : ((min width fw : ℤ) : ℚ) * ((fh : ℚ) * ((fw : ℚ))⁻¹) ≤
              (fw : ℚ) * ((fh : ℚ) * ((fw : ℚ))⁻¹) := by
            apply mul_le_mul_of_nonneg_right hwle
            positivity
          have step2 : (fw : ℚ) * ((fh : ℚ) * ((fw : ℚ))⁻¹) = (fh : ℚ) := by
            field_simp
          nlinarith [step1, step2]
        have hq0 : (0 : ℚ) ≤ ((min width fw : ℤ) : ℚ) * ((fh : ℚ) / (fw : ℚ)) * (9/20 : ℚ) := by
          positivity
        have := truncToInt_nonneg_le hq0 hq
        rwa [Int.floor_intCast] at this

/-- Witness for C1's amended theorem: a 640×480 source at target width 80,
no target height, yields an 80×27 grid within the amended bounds. -/
theorem calc_dims_bounds_witness :
    ∃ gw gh, calculateDimensions 80 none 640 480 = some (gw, gh) ∧
      10 ≤ gw ∧ 5 ≤ gh ∧ gw ≤ max 640 10 ∧ gh ≤ max 480 5 :=
  calc_dims_bounds 80 none 640 480 (by norm_num) (by norm_num) (by norm_num)

/-- C2 counterexample: constructing a converter with target width 0 (a
non-positive width) succeeds — `__init__` stores the width without any
validation. -/
theorem init_nonpositive_width_succeeds_counterexample :
    asciiConverterInit "classic" 0 none "true" =
      Except.ok { chars := " .:-=+*#%@", width := 0, height := none,
                  charRange := 9, colorSchemeName := "true" } ∧ (0 : ℤ) ≤ 0 :=
  ⟨rfl, le_refl 0⟩

/-- C2 amended: construction validates only the preset and color-scheme
names — it succeeds if and only if both names are registered, for every
target width (including non-positive ones) and optional height, and the
width is stored unchecked; a non-positive width is deferred, not
rejected. -/
theorem init_validates_only_names (preset : String) (width : ℤ)
    (height : Option ℤ) (colorScheme : String) :
    ((asciiConverterInit preset width height colorScheme).isOk = true ↔
      (CHAR_PRESETS.lookup preset).isSome = true ∧
      (COLOR_SCHEMES.lookup colorScheme).isSome = true) ∧
    (∀ c, asciiConverterInit preset width height colorScheme = Except.ok c →
      c.width = width) := by
  constructor
  · cases hp : CHAR_PRESETS.lookup preset with
    | none => simp [asciiConverterInit, hp, Except.isOk, Except.toBool]
    | some chars =>
      cases hs : COLOR_SCHEMES.lookup colorScheme with
      | none => simp [asciiConverterInit, hp, hs, Except.isOk, Except.toBool]
      | some s => simp [asciiConverterInit, hp, hs, Except.isOk, Except.toBool]
  · intro c hc
    unfold asciiConverterInit at hc
    cases hp : CHAR_PRESETS.lookup preset with
    | none => rw [hp] at hc; cases hc
    | some chars =>
      rw [hp] at hc
      cases hs : COLOR_SCHEMES.lookup colorScheme with
      | none => rw [hs] at hc; cases hc
      | some s =>
        rw [hs] at hc
        cases hc
        rfl

/-- Witness for C2's amended theorem: width -3 with valid names
constructs successfully. -/
theorem init_validates_only_names_witness :
    (asciiConverterInit "classic" (-3) none "true").isOk = true :=
  (init_validates_only_names "classic" (-3) none "true").1.mpr
    ⟨by decide, by decide⟩

lemma resizeStep_unfold (width : ℤ) (height : Option ℤ) (st : ResizeState)
    (fw fh nw nh : ℤ)
    (hc : calculateDimensions width height fw fh = some (nw, nh)) :
    resizeStep width height st fw fh =
      if st.lastFrameDims ≠ some (fw, fh) ∨ st.lastTargetDims ≠ some (width, height) then
        if st.bufShape = some (nh, nw) then
          some ({ st with lastFrameDims := some (fw, fh),
                          lastTargetDims := some (width, height) }, nw, nh)
        else
          some ({ st with lastFrameDims := some (fw, fh),
                          lastTargetDims := some (width, height),
                          bufShape := some (nh, nw), bufGen := st.bufGen + 1 }, nw, nh)
      else some (st, nw, nh) := by
  unfold resizeStep
  rw [hc]

lemma resizeStep_success (width : ℤ) (height : Option ℤ) (st st' : ResizeState)
    (fw fh nw nh : ℤ)
    (h : resizeStep width height st fw fh = some (st', nw, nh)) :
    st'.lastFrameDims = some (fw, fh) ∧ st'.lastTargetDims = some (width, height) ∧
    calculateDimensions width height fw fh = some (nw, nh) := by
  cases hc : calculateDimensions width height fw fh with
  | none =>
    have hnone : resizeStep width height st fw fh = none := by
      unfold resizeStep
      rw [hc]
    rw [hnone] at h
    cases h
  | some p =>
    obtain ⟨cw, ch⟩ := p
    rw [resizeStep_unfold width height st fw fh cw ch hc] at h
    by_cases hkey : st.lastFrameDims ≠ some (fw, fh) ∨ st.lastTargetDims ≠ some (width, height)
    · rw [if_pos hkey] at h
      by_cases hshape : st.bufShape = some (ch, cw)
      · rw [if_pos hshape] at h
        simp only [Option.some.injEq, Prod.mk.injEq] at h
        obtain ⟨h1, h2, h3⟩ := h
        subst h2
        subst h3
        rw [← h1]
        exact ⟨rfl, rfl, rfl⟩
      · rw [if_neg hshape] at h
        simp only [Option.some.injEq, Prod.mk.injEq] at h
        obtain ⟨h1, h2, h3⟩ := h
        subst h2
        subst h3
        rw [← h1]
        exact ⟨rfl, rfl, rfl⟩
    · rw [if_neg hkey] at h
      simp only [Option.some.injEq, Prod.mk.injEq] at h
      obtain ⟨h1, h2, h3⟩ := h
      subst h2
      subst h3
      push_neg at hkey
      rw [← h1]
      exact ⟨hkey.1, hkey.2, rfl⟩

/-- C6 counterexample: with target width 80 and no target height, a
640×480 frame and then a 1280×960 frame (different source dimensions)
both plan an 80×27 grid, so the second call does not reallocate the
scratch buffers (the generation counter stays 1) even though the frame
dimensions changed. -/
theorem resize_no_realloc_counterexample :
    resizeStep 80 none initResizeState 640 480 =
      some ({ lastFrameDims := some (640, 480), lastTargetDims := some (80, none),
              bufShape := some (27, 80), bufGen := 1 }, 80, 27) ∧
    resizeStep 80 none
      { lastFrameDims := some (640, 480), lastTargetDims := some (80, none),
        bufShape := some (27, 80), bufGen := 1 } 1280 960 =
      some ({ lastFrameDims := some (1280, 960), lastTargetDims := some (80, none),
              bufShape := some (27, 80), bufGen := 1 }, 80, 27) ∧
    ((1280, 960) : ℤ × ℤ) ≠ (640, 480) := by
  have hc1 : calculateDimensions 80 none 640 480 = some (80, 27) := by
    norm_num [calculateDimensions, truncToInt]
  have hc2 : calculateDimensions 80 none 1280 960 = some (80, 27) := by
    norm_num [calculateDimensions, truncToInt]
  refine ⟨?_, ?_, by decide⟩
  · rw [resizeStep_unfold 80 none initResizeState 640 480 80 27 hc1]
    decide
  · rw [resizeStep_unfold 80 none _ 1280 960 80 27 hc2]
    decide

/-- C6 amended: calling the resize step twice with frames of identical
pixel dimensions (same converter target configuration) leaves the whole
cached state — in particular the allocation generation of every scratch
buffer — unchanged on the second call; a call with different frame
dimensions reallocates the scratch buffers if and only if the newly
computed grid dimensions differ from the current buffer shape. -/
theorem resize_buffer_reuse (width : ℤ) (height : Option ℤ)
    (st st1 : ResizeState) (fw fh nw nh : ℤ)
    (h : resizeStep width height st fw fh = some (st1, nw, nh)) :
    resizeStep width height st1 fw fh = some (st1, nw, nh) ∧
    (∀ st2 fw2 fh2 nw2 nh2, (fw2, fh2) ≠ (fw, fh) →
      resizeStep width height st1 fw2 fh2 = some (st2, nw2, nh2) →
      (st2.bufGen = st1.bufGen ↔ st1.bufShape = some (nh2, nw2))) := by
  obtain ⟨hfd, htd, hc⟩ := resizeStep_success width height st st1 fw fh nw nh h
  constructor
  · rw [resizeStep_unfold width height st1 fw fh nw nh hc]
    have hkey : ¬ (st1.lastFrameDims ≠ some (fw, fh) ∨
        st1.lastTargetDims ≠ some (width, height)) := by
      push_neg
      exact ⟨hfd, htd⟩
    rw [if_neg hkey]
  · intro st2 fw2 fh2 nw2 nh2 hne h2
    cases hc2 : calculateDimensions width height fw2 fh2 with
    | none =>
      have hnone : resizeStep width height st1 fw2 fh2 = none := by
        unfold resizeStep
        rw [hc2]
      rw [hnone] at h2
      cases h2
    | some p =>
      obtain ⟨cw2, ch2⟩ := p
      rw [resizeStep_unfold width height st1 fw2 fh2 cw2 ch2 hc2] at h2
      have hkey2 : st1.lastFrameDims ≠ some (fw2, fh2) ∨
          st1.lastTargetDims ≠ some (width, height) := by
        left
        rw [hfd]
        intro hcon
        exact hne (Option.some.inj hcon).symm
      rw [if_pos hkey2] at h2
      by_cases hshape : st1.bufShape = some (ch2, cw2)
      · rw [if_pos hshape] at h2
        simp only [Option.some.injEq, Prod.mk.injEq] at h2
        obtain ⟨h1, hw2, hh2⟩ := h2
        subst hw2
        subst hh2
        rw [← h1]
        exact ⟨fun _ => hshape, fun _ => rfl⟩
      · rw [if_neg hshape] at h2
        simp only [Option.some.injEq, Prod.mk.injEq] at h2
        obtain ⟨h1, hw2, hh2⟩ := h2
        subst hw2
        subst hh2
        rw [← h1]
        constructor
        · intro hgen
          exact absurd hgen (by simp)
        · intro hcon
          exact absurd hcon hshape

/-- Witness for C6's amended theorem: the 640×480 first step from a fresh
state. -/
theorem resize_buffer_reuse_witness :
    resizeStep 80 none
      { lastFrameDims := some (640, 480), lastTargetDims := some (80, none),
        bufShape := some (27, 80), bufGen := 1 } 640 480 =
      some ({ lastFrameDims := some (640, 480), lastTargetDims := some (80, none),
              bufShape := some (27, 80), bufGen := 1 }, 80, 27) :=
  (resize_buffer_reuse 80 none initResizeState
    { lastFrameDims := some (640, 480), lastTargetDims := some (80, none),
      bufShape := some (27, 80), bufGen := 1 } 640 480 80 27
    (by
      have hc1 : calculateDimensions 80 none 640 480 = some (80, 27) := by
        norm_num [calculateDimensions, truncToInt]
      rw [resizeStep_unfold 80 none initResizeState 640 480 80 27 hc1]
      decide)).1

lemma truncUint8_zero : truncUint8 0 = 0 := by
  norm_num [truncUint8, truncToInt]

/-- C8 counterexample: for the neon scheme on the cell (b, g, r) =
(255, 0, 0), the installed vectorized fast path writes (255, 0, 0) —
channel order b_out, g_out, r_out — while applying the registry entry to
the cell yields the triple (0, 0, 255); the two are not bit-identical. -/
theorem fastpath_neq_registry_counterexample :
    fastPathCell Scheme.neon (255, 0, 0) = (255, 0, 0) ∧
    registryCell Scheme.neon (255, 0, 0) = (0, 0, 255) ∧
    fastPathCell Scheme.neon (255, 0, 0) ≠ registryCell Scheme.neon (255, 0, 0) := by
  have h1 : fastPathCell Scheme.neon (255, 0, 0) = (255, 0, 0) := by
    norm_num [fastPathCell, optimizedColorCell, schemeFun,
      truncUint8, truncToInt, min_def]
    decide
  have h2 : registryCell Scheme.neon (255, 0, 0) = (0, 0, 255) := by
    norm_num [registryCell, schemeFun, truncUint8, truncToInt, min_def]
    decide
  refine ⟨h1, h2, ?_⟩
  rw [h1, h2]
  decide

/-- C8 amended: the installed fast path is bit-identical to the per-cell
registry application for the `true` and `matrix` schemes; for every other
scheme (neon, vintage, cyberpunk) the fast path stores the registry
output triple with its first and third components transposed (the
generic vectorized path writes the returned `(r_out, g_out, b_out)` into
buffer channels 0, 1, 2 as `b_out, g_out, r_out`). -/
theorem fastpath_vs_registry (s : Scheme) (c : Cell) (hc : cellInRange c) :
    ((s = Scheme.trueColor ∨ s = Scheme.matrix) → fastPathCell s c = registryCell s c) ∧
    (s ≠ Scheme.trueColor → s ≠ Scheme.matrix →
      fastPathCell s c = swap13 (registryCell s c)) := by
  obtain ⟨h0, h1, h2⟩ := hc
  cases s with
  | trueColor =>
    refine ⟨fun _ => ?_, fun hn _ => absurd rfl hn⟩
    show trueColorCell c = registryCell Scheme.trueColor c
    simp [trueColorCell, registryCell, schemeFun,
      truncUint8_natCast h0, truncUint8_natCast h1, truncUint8_natCast h2]
  | matrix =>
    refine ⟨fun _ => ?_, fun _ hn => absurd rfl hn⟩
    show matrixColorCell c = registryCell Scheme.matrix c
    simp [matrixColorCell, registryCell, schemeFun, truncUint8_zero]
  | neon =>
    constructor
    · intro h
      rcases h with h | h <;> exact absurd h (by decide)
    · intro _ _
      rfl
  | vintage =>
    constructor
    · intro h
      rcases h with h | h <;> exact absurd h (by decide)
    · intro _ _
      rfl
  | cyberpunk =>
    constructor
    · intro h
      rcases h with h | h <;> exact absurd h (by decide)
    · intro _ _
      rfl

/-- Witness for C8's amended theorem: the cyberpunk fast path at
(10, 20, 30) equals the transposed registry output. -/
theorem fastpath_vs_registry_witness :
    fastPathCell Scheme.cyberpunk (10, 20, 30) =
      swap13 (registryCell Scheme.cyberpunk (10, 20, 30)) :=
  (fastpath_vs_registry Scheme.cyberpunk (10, 20, 30)
    ⟨by norm_num, by norm_num, by norm_num⟩).2 (by decide) (by decide)

/-- C9: for every color grid and index/character grid of height H, the
renderer produces exactly H output rows; row y is built from row y of the
two grids alone (rows in input order, top to bottom); and every output
row terminates its color styling with the reset code before the row
ends. -/
theorem ansi_render_rows (colors : List (List Cell)) (chars : List (List Char))
    (H : ℕ) (hc : colors.length = H) (hh : chars.length = H) :
    (createAnsiLines colors chars).length = H ∧
    (∀ (y : ℕ) (cy : List Cell) (ry : List Char), colors[y]? = some cy → chars[y]? = some ry →
      (createAnsiLines colors chars)[y]? = some (ansiRowStr cy ry)) ∧
    (∀ row ∈ createAnsiLines colors chars, ∃ s, row = s ++ colorReset) := by
  refine ⟨?_, ?_, ?_⟩
  · simp [createAnsiLines, hc, hh]
  · intro y cy ry hcy hry
    rw [createAnsiLines, List.getElem?_zipWith, hcy, hry]
  · intro row hrow
    rw [createAnsiLines] at hrow
    obtain ⟨y, hy⟩ := List.mem_iff_getElem?.mp hrow
    obtain ⟨cy, ry, _, _, hrw⟩ := List.getElem?_zipWith_eq_some.mp hy
    exact ⟨String.join (List.zipWith ansiCellStr cy ry), hrw.symm⟩

/-- Witness for C9: a 2-row grid of one cell per row. -/
theorem ansi_render_rows_witness :
    (createAnsiLines [[(255, 0, 0)], [(0, 255, 0)]] [['a'], ['b']]).length = 2 ∧
    (∀ (y : ℕ) (cy : List Cell) (ry : List Char),
      ([[(255, 0, 0)], [(0, 255, 0)]] : List (List Cell))[y]? = some cy →
      ([['a'], ['b']] : List (List Char))[y]? = some ry →
      (createAnsiLines [[(255, 0, 0)], [(0, 255, 0)]] [['a'], ['b']])[y]? =
        some (ansiRowStr cy ry)) ∧
    (∀ row ∈ createAnsiLines [[(255, 0, 0)], [(0, 255, 0)]] [['a'], ['b']],
      ∃ s, row = s ++ colorReset) :=
  ansi_render_rows [[(255, 0, 0)], [(0, 255, 0)]] [['a'], ['b']] 2 rfl rfl

/-- C10: the matrix scheme's installed transform never touches the
converter's reusable `_color_buffer` (its identity and shape are
unchanged), returns a buffer distinct from `_color_buffer`, returns a
distinct fresh buffer on each successive call, and produces cells whose
red and blue channels are the zeros of its freshly zero-initialized
output; every other scheme's transform, on a same-shaped frame, returns
exactly the reused `_color_buffer` and leaves the state unchanged. -/
theorem matrix_fresh_buffer (st : ColorState) (shape : ℤ × ℤ) (hwf : st.wf) :
    ((colorApply Scheme.matrix st shape).1.bufId = st.bufId ∧
     (colorApply Scheme.matrix st shape).1.bufShape = st.bufShape) ∧
    (colorApply Scheme.matrix st shape).2 ≠ st.bufId ∧
    (colorApply Scheme.matrix (colorApply Scheme.matrix st shape).1 shape).2 ≠
      (colorApply Scheme.matrix st shape).2 ∧
    (∀ c : Cell, (matrixColorCell c).1 = 0 ∧ (matrixColorCell c).2.2 = 0) ∧
    (∀ s, s ≠ Scheme.matrix → st.bufShape = some shape →
      colorApply s st shape = (st, st.bufId)) := by
  have hwf' : st.bufId < st.nextId := hwf
  refine ⟨⟨rfl, rfl⟩, ?_, ?_, ?_, ?_⟩
  · show st.nextId ≠ st.bufId
    omega
  · show st.nextId + 1 ≠ st.nextId
    omega
  · intro c
    exact ⟨rfl, rfl⟩
  · intro s hs hsh
    cases s with
    | matrix => exact absurd rfl hs
    | trueColor => simp [colorApply, hsh]
    | neon => simp [colorApply, hsh]
    | vintage => simp [colorApply, hsh]
    | cyberpunk => simp [colorApply, hsh]

/-- Witness for C10: a state with one allocated buffer of shape 27×80. -/
theorem matrix_fresh_buffer_witness :
    ((colorApply Scheme.matrix ⟨some (27, 80), 0, 1⟩ (27, 80)).1.bufId =
      (⟨some (27, 80), 0, 1⟩ : ColorState).bufId ∧
     (colorApply Scheme.matrix ⟨some (27, 80), 0, 1⟩ (27, 80)).1.bufShape =
      (⟨some (27, 80), 0, 1⟩ : ColorState).bufShape) ∧
    (colorApply Scheme.matrix ⟨some (27, 80), 0, 1⟩ (27, 80)).2 ≠
      (⟨some (27, 80), 0, 1⟩ : ColorState).bufId ∧
    (colorApply Scheme.matrix
        (colorApply Scheme.matrix ⟨some (27, 80), 0, 1⟩ (27, 80)).1 (27, 80)).2 ≠
      (colorApply Scheme.matrix ⟨some (27, 80), 0, 1⟩ (27, 80)).2 ∧
    (∀ c : Cell, (matrixColorCell c).1 = 0 ∧ (matrixColorCell c).2.2 = 0) ∧
    (∀ s, s ≠ Scheme.matrix →
      (⟨some (27, 80), 0, 1⟩ : ColorState).bufShape = some (27, 80) →
      colorApply s ⟨some (27, 80), 0, 1⟩ (27, 80) =
        (⟨some (27, 80), 0, 1⟩, (⟨some (27, 80), 0, 1⟩ : ColorState).bufId)) :=
  matrix_fresh_buffer ⟨some (27, 80), 0, 1⟩ (27, 80) (by norm_num [ColorState.wf])

end AsciiWebcam
